import Mathlib

/-!
# Verification of the medical-integration event processor

A shallow embedding of the per-key sequential event processor of the
`medical-integration` repository (processor service: `WorkerController`,
`WorkerService`, `QueueEventDto`, `ProcessedEvent` schema; ingest service:
`QueueService.publish`, `IngestEventDto`).

The concurrent behaviour of `WorkerService` (an async JavaScript class whose
tasks interleave at `await` points) is modelled as a small-step transition
system: a fixed workload of events, one task per event, and atomic actions
corresponding to the synchronous segments between `await` points of the
source.  The `patientLocks` map, the MongoDB `processed_events` collection
(with its unique index on `eventId`), and the executions of
`simulateProcessing` are the observable state.
-/

namespace MedInt

/-- The validated body received by the processor boundary
(`QueueEventDto` in `worker/dto/queue-event.dto.ts`).  The opaque
`data` object is carried as an abstract string. -/

structure QueueEventDto where
  eventId : String
  patientId : String
  kind : String
  data : String
  ts : String
  deriving DecidableEq

instance : Inhabited QueueEventDto := ⟨⟨"", "", "", "", ""⟩⟩

/-- A row of the `processed_events` collection
(`ProcessedEvent` in `worker/schemas/processed-event.schema.ts`).
The wall-clock metadata (`processedAt`, `processingDurationMs`, `result`)
is not needed by any claim and is abstracted away; the identifying and
payload fields are kept. -/

structure ProcessedEvent where
  eventId : String
  patientId : String
  kind : String
  data : String
  ts : String
  deriving DecidableEq

/-- The record built by `processEventInternal` before `create` is called. -/

def mkRecord (e : QueueEventDto) : ProcessedEvent :=
  { eventId := e.eventId, patientId := e.patientId, kind := e.kind,
    data := e.data, ts := e.ts }

/-- Whether the collection already holds a row with this `eventId`
(the `findOne` query and the unique-index check). -/

def hasId (store : List ProcessedEvent) (id : String) : Bool :=
  store.any (fun r => r.eventId = id)

/-- Outcome of a storage-layer insert, per the Deduplication Store contract:
`inserted` on success, `duplicateKey` when the unique index on `eventId`
rejects the row (Mongo error code 11000), `storeUnavailable` on I/O
failure. -/

inductive InsertOutcome where
  | inserted
  | duplicateKey
  | storeUnavailable
  deriving DecidableEq

/-- Atomic insert against the `processed_events` collection.  The schema
declares `@Prop(\x7b required: true, unique: true \x7d)` on `eventId`, so the
storage layer accepts a row only if no row with the same `eventId` exists,
in one atomic step.  `fault` injects an I/O failure (`storeUnavailable`). -/

def mongoInsert (fault : Bool) (store : List ProcessedEvent)
    (r : ProcessedEvent) : InsertOutcome × List ProcessedEvent :=
  if fault then (.storeUnavailable, store)
  else if hasId store r.eventId then (.duplicateKey, store)
  else (.inserted, store ++ [r])

/-- Where a task (one call of `WorkerService.processEvent`) stands.

* `notSubmitted` — the POST has not arrived yet;
* `waitingOn p`  — inside `processWithLock`, suspended on
  `await existingPromise.catch(() => \x7b\x7d)` where `existingPromise` is the
  promise of task `p`;
* `ready`        — about to run `processEventInternal`: the `findOne`
  duplicate check is the next step;
* `running`      — the duplicate check returned nothing and
  `simulateProcessing` (the domain effect) is in progress;
* `done ok`      — the task's promise settled: resolved (`ok = true`,
  covering both the skip path and successful insert and the swallowed
  duplicate-key path) or rejected (`ok = false`, a store failure
  propagated out of `processEventInternal`). -/

inductive Phase where
  | notSubmitted
  | waitingOn (p : Nat)
  | ready
  | running
  | done (ok : Bool)
  deriving DecidableEq

/-- Model of `patientLocks.get(k)` on the association-list view of the `Map`. -/

def mapGet (m : List (String × Nat)) (k : String) : Option Nat :=
  (m.find? (fun q => q.1 = k)).map (fun q => q.2)

/-- Model of `patientLocks.set(k, v)`. -/

def mapSet (m : List (String × Nat)) (k : String) (v : Nat) :
    List (String × Nat) :=
  (k, v) :: m.filter (fun q => ¬ q.1 = k)

/-- Model of `patientLocks.delete(k)`. -/

def mapDelete (m : List (String × Nat)) (k : String) :
    List (String × Nat) :=
  m.filter (fun q => ¬ q.1 = k)

/-- Global state: the workload (task `t` processes `events[t]`), each task's
phase, whether each task's `finally` block has run, the `patientLocks`
map, the `processed_events` collection, and the log of `eventId`s for
which `simulateProcessing` was executed. -/

structure Config where
  events : List QueueEventDto
  phase : List Phase
  cleaned : List Bool
  locks : List (String × Nat)
  store : List ProcessedEvent
  effects : List String
  deriving DecidableEq

/-- Phase of task `t`. -/

def Config.phaseOf (c : Config) (t : Nat) : Phase :=
  c.phase.getD t .notSubmitted

/-- Whether task `t`'s `finally` block has run. -/

def Config.cleanedOf (c : Config) (t : Nat) : Bool :=
  c.cleaned.getD t true

/-- The event task `t` processes. -/

def Config.eventOf (c : Config) (t : Nat) : QueueEventDto :=
  c.events.getD t default

/-- The atomic actions, one per synchronous segment of the source:

* `submit t` — `processEvent` is called: `processWithLock` synchronously
  reads `patientLocks.get(patientId)` (before `processEvent` executes
  `patientLocks.set`), then either suspends on the previous promise or
  enters `processEventInternal`; the `set` runs in the same synchronous
  block;
* `proceed t` — the awaited predecessor promise has settled (resolved or
  rejected — the `.catch(() => \x7b\x7d)` ignores a rejection) and task `t`
  resumes into `processEventInternal`;
* `checkExists t fault` — the `findOne` duplicate check completes; on a
  hit the task returns (skip), otherwise `simulateProcessing` starts;
  `fault = true` models the query throwing (store unavailable), which
  propagates and rejects the task's promise;
* `insertRecord t fault` — `simulateProcessing` finished and
  `this.processedEventModel.create(...)` completes: `inserted` and
  `duplicateKey` (error code 11000, caught and swallowed) resolve the
  promise, any other error is rethrown and rejects it;
* `cleanup t` — the `finally \x7b this.patientLocks.delete(event.patientId) \x7d`
  of `processEvent` runs after the task's promise settled.  The delete is
  unconditional, exactly as in the source. -/

inductive Action where
  | submit (t : Nat)
  | proceed (t : Nat)
  | checkExists (t : Nat) (fault : Bool)
  | insertRecord (t : Nat) (fault : Bool)
  | cleanup (t : Nat)
  deriving DecidableEq

/-- One interleaving step: `none` when the action is not enabled. -/

def step (c : Config) (a : Action) : Option Config :=
  match a with
  | .submit t =>
    if t < c.events.length then
      match c.phaseOf t with
      | .notSubmitted =>
        let e := c.eventOf t
        let ph : Phase :=
          match mapGet c.locks e.patientId with
          | some p => .waitingOn p
          | none => .ready
        some { c with phase := c.phase.set t ph,
                      locks := mapSet c.locks e.patientId t }
      | _ => none
    else none
  | .proceed t =>
    match c.phaseOf t with
    | .waitingOn p =>
      match c.phaseOf p with
      | .done _ => some { c with phase := c.phase.set t .ready }
      | _ => none
    | _ => none
  | .checkExists t fault =>
    match c.phaseOf t with
    | .ready =>
      if fault then
        some { c with phase := c.phase.set t (.done false) }
      else if hasId c.store (c.eventOf t).eventId then
        some { c with phase := c.phase.set t (.done true) }
      else
        some { c with phase := c.phase.set t .running,
                      effects := c.effects ++ [(c.eventOf t).eventId] }
    | _ => none
  | .insertRecord t fault =>
    match c.phaseOf t with
    | .running =>
      match mongoInsert fault c.store (mkRecord (c.eventOf t)) with
      | (.inserted, s) =>
        some { c with store := s, phase := c.phase.set t (.done true) }
      | (.duplicateKey, s) =>
        some { c with store := s, phase := c.phase.set t (.done true) }
      | (.storeUnavailable, s) =>
        some { c with store := s, phase := c.phase.set t (.done false) }
    | _ => none
  | .cleanup t =>
    match c.phaseOf t with
    | .done _ =>
      if c.cleanedOf t then none
      else
        some { c with cleaned := c.cleaned.set t true,
                      locks := mapDelete c.locks (c.eventOf t).patientId }
    | _ => none

/-- Run a list of actions from a configuration; `none` if any action is
not enabled at its turn. -/

def run (c : Config) (tr : List Action) : Option Config :=
  match tr with
  | [] => some c
  | a :: rest =>
    match step c a with
    | some c1 => run c1 rest
    | none => none

/-- The initial configuration for a workload: process started with an
empty `patientLocks` map, empty collection, no event submitted yet. -/

def init (events : List QueueEventDto) : Config :=
  { events := events,
    phase := List.replicate events.length .notSubmitted,
    cleaned := List.replicate events.length false,
    locks := [],
    store := [],
    effects := [] }

/-! ## The reachable-state invariant -/

/-- State invariant of `WorkerService`, preserved by every action:

* `phaseLen`, `cleanedLen` — the bookkeeping lists cover the workload;
* `locksEntry` — every `patientLocks` entry points at a submitted task
  for exactly that patient whose `finally` has not run yet;
* `cleanedDone` — a task's `finally` only runs after its promise settled;
* `submittedLt` — only workload tasks are ever submitted;
* `storeNodup` — the unique index: no two rows share an `eventId`. -/

structure Inv (c : Config) : Prop where
  phaseLen : c.phase.length = c.events.length
  cleanedLen : c.cleaned.length = c.events.length
  locksEntry : ∀ q ∈ c.locks, q.2 < c.events.length ∧
    (c.eventOf q.2).patientId = q.1 ∧
    c.phaseOf q.2 ≠ .notSubmitted ∧
    c.cleanedOf q.2 = false
  cleanedDone : ∀ t, t < c.events.length → c.cleanedOf t = true →
    ∃ b, c.phaseOf t = .done b
  submittedLt : ∀ t, c.phaseOf t ≠ .notSubmitted → t < c.events.length
  storeNodup : (c.store.map (fun r => r.eventId)).Nodup

/-! ## Concrete workloads exercising the lock-cleanup race

All events below share `patientId = "P"`.  The traces are real
interleavings of the source: each `Action` is one synchronous segment,
and the orderings used are exactly those the Node.js event loop can
produce (a new POST may arrive at any point between segments). -/

/-- Event `"A"` for patient `"P"`. -/

def evA : QueueEventDto := ⟨"A", "P", "obs", "dA", "t1"⟩

/-- First delivery of event `"B"` for patient `"P"`. -/

def evB : QueueEventDto := ⟨"B", "P", "obs", "dB", "t2"⟩

/-- Second delivery of event `"B"` (same `eventId`). -/

def evB2 : QueueEventDto := ⟨"B", "P", "obs", "dB", "t2"⟩

/-- Event `"C"` for patient `"P"`. -/

def evC : QueueEventDto := ⟨"C", "P", "obs", "dC", "t3"⟩

/-- Interleaving for C1: task 0 processes `"A"`; tasks 1 and 2 both carry
`eventId "B"`.  Task 1 arrives while task 0 runs and queues behind it;
task 0 completes and its unconditional `finally` delete erases task 1's
lock entry; task 2 then arrives, finds no lock, and runs concurrently
with task 1.  Both pass the `findOne` check before either inserts. -/

def traceC1 : List Action :=
  [.submit 0, .checkExists 0 false, .submit 1, .insertRecord 0 false,
   .cleanup 0, .submit 2, .proceed 1, .checkExists 2 false,
   .checkExists 1 false, .insertRecord 2 false, .insertRecord 1 false]

/-- Interleaving for C2: tasks 0, 1, 2 carry distinct events `"A"`,
`"B"`, `"C"` for the same patient, submitted in that order; after task
0's cleanup erases task 1's lock entry, task 2 starts while task 1 is
still processing. -/

def traceC2 : List Action :=
  [.submit 0, .checkExists 0 false, .submit 1, .insertRecord 0 false,
   .cleanup 0, .proceed 1, .checkExists 1 false, .submit 2,
   .checkExists 2 false]

/-- Shared beginning for C3: task 0 (`"A"`) starts; task 1 (`"B"`) is
submitted and installs itself as the current lock entry; task 0
finishes its insert.  Task 0's `finally` has not yet run. -/

def traceC3 : List Action :=
  [.submit 0, .checkExists 0 false, .submit 1, .insertRecord 0 false]

/-! ## The processor HTTP boundary (`WorkerController` + `ValidationPipe`) -/

/-- A raw request body at the processor boundary, before the global
`ValidationPipe` applies the `QueueEventDto` decorators: each string
field may be missing, and `dataIsObject` records whether the `data`
member is present and is an object (`@IsObject`). -/

structure RawQueueEvent where
  eventId : Option String
  patientId : Option String
  kind : Option String
  dataIsObject : Bool
  ts : Option String
  deriving DecidableEq

/-- Decorators `@IsString() @IsNotEmpty()`: present and non-empty. -/

def presentNonEmpty (s : Option String) : Bool :=
  match s with
  | some v => ¬ v.isEmpty
  | none => false

/-- Decorator `@MaxLength(n)`. -/

def withinLen (n : Nat) (s : Option String) : Bool :=
  match s with
  | some v => v.length ≤ n
  | none => false

/-- The `QueueEventDto` validation, decorator for decorator
(`worker/dto/queue-event.dto.ts`): `eventId` a non-empty string,
`patientId` non-empty of length ≤ 128, `type` non-empty of length ≤ 64,
`data` an object, `ts` accepted by the ISO-8601 recognizer `iso`
(class-validator's `IsISO8601`, an external library, kept abstract —
every theorem below holds for any recognizer). -/

def queueEventDtoValid (iso : String → Bool) (r : RawQueueEvent) : Bool :=
  presentNonEmpty r.eventId &&
  (presentNonEmpty r.patientId && withinLen 128 r.patientId) &&
  (presentNonEmpty r.kind && withinLen 64 r.kind) &&
  r.dataIsObject &&
  (match r.ts with
   | some v => iso v
   | none => false)

/-- The two replies of `POST /queue`. -/

inductive HttpReply where
  | accepted
  | badRequest
  deriving DecidableEq

/-- Model of `WorkerController.receiveEvent` behind the global `ValidationPipe`:
an invalid body is rejected by the pipe (400) before the controller
runs; a valid one reaches the controller, which dispatches
`processEvent` fire-and-forget (with a `.catch` that only logs) and
returns `status: accepted` (202).  The reply reads neither the current
collection contents (`store`) nor the eventual processing outcome
(`processingFails`); both parameters appear only to state that
independence. -/

def receiveEvent (iso : String → Bool) (r : RawQueueEvent)
    (store : List ProcessedEvent) (processingFails : Bool) : HttpReply :=
  if queueEventDtoValid iso r then .accepted else .badRequest

/-! ## The ingest boundary (`QueueService.publish`) -/

/-- Structure `IngestEventDto` (`events/dto/ingest-event.dto.ts`): the ingest
request body.  It declares no `eventId` member — the whitelist
validation admits only these four fields, so a caller-supplied
identifier never reaches `publish`. -/

structure IngestEventDto where
  patientId : String
  kind : String
  data : String
  ts : String
  deriving DecidableEq

/-- Model of `QueueService.publish` (`events/queue.service.ts`):
`const eventId = randomUUID(); const payload = \x7b eventId, ...event \x7d;`
followed by a POST of the payload to the processor's `/queue`.  The
`randomUUID()` supply is modelled as a function `uuid` of the call
number; the collision-freedom of version-4 UUIDs is expressed as
injectivity of that supply where a theorem needs it. -/

def publish (uuid : Nat → String) (n : Nat) (e : IngestEventDto) :
    QueueEventDto :=
  { eventId := uuid n, patientId := e.patientId, kind := e.kind,
    data := e.data, ts := e.ts }

/-! ## Concrete instantiations of the hypothesised theorems -/

/-- A worker state in which task 0 (event `"A"`) is mid-effect while the
store already holds a row for `"A"` (the racing-duplicate scenario). -/

def cw4 : Config :=
  ⟨[evA], [.running], [false], [("P", 0)], [mkRecord evA], ["A"]⟩

/-- A worker state in which task 0 (event `"A"`) is about to run the
duplicate check while the store already holds a row for `"A"`. -/

def cw5 : Config :=
  ⟨[evA], [.ready], [false], [("P", 0)], [mkRecord evA], []⟩

/-- A worker state in which task 0 (event `"A"`) failed — its promise
rejected — and task 1 (event `"B"`, same patient) is queued behind it. -/

def cw6 : Config :=
  ⟨[evA, evB], [.done false, .waitingOn 0], [false, false], [("P", 1)],
    [], ["A"]⟩

/-- The single-event schedule: submit, duplicate check, insert. -/

def trW7 : List Action :=
  [.submit 0, .checkExists 0 false, .insertRecord 0 false]

/-- The configuration `trW7` reaches from `init [evA]`. -/

def cw7 : Config :=
  ⟨[evA], [.done true], [false], [("P", 0)], [mkRecord evA], ["A"]⟩

/-- The single-event schedule including the `finally` cleanup. -/

def trW8 : List Action :=
  [.submit 0, .checkExists 0 false, .insertRecord 0 false, .cleanup 0]

/-- The configuration `trW8` reaches from `init [evA]`: the task is
finished and cleaned, and the lock registry is empty again. -/

def cw8 : Config :=
  ⟨[evA], [.done true], [true], [], [mkRecord evA], ["A"]⟩

/-- A permissive stand-in for the ISO-8601 recognizer. -/

def isoAny : String → Bool := fun _ => true

/-- A structurally valid raw body for `POST /queue`. -/

def rawOk : RawQueueEvent :=
  ⟨some "e-1", some "p-1", some "observation", true,
    some "2024-05-01T10:00:00Z"⟩

/-- An injective identifier supply standing in for `randomUUID`. -/

def uuidSupply : Nat → String := fun n => String.mk (List.replicate n 'u')

/-- A fixed ingest body, POSTed twice. -/

def ingestBody : IngestEventDto := ⟨"p-1", "observation", "d", "t"⟩

@[simp]

theorem phaseOf_mk (ev : List QueueEventDto) (ph : List Phase)
    (cl : List Bool) (lk : List (String × Nat)) (st : List ProcessedEvent)
    (ef : List String) (t : Nat) :
    (Config.mk ev ph cl lk st ef).phaseOf t = ph.getD t .notSubmitted := rfl

@[simp]

theorem cleanedOf_mk (ev : List QueueEventDto) (ph : List Phase)
    (cl : List Bool) (lk : List (String × Nat)) (st : List ProcessedEvent)
    (ef : List String) (t : Nat) :
    (Config.mk ev ph cl lk st ef).cleanedOf t = cl.getD t true := rfl

@[simp]

theorem eventOf_mk (ev : List QueueEventDto) (ph : List Phase)
    (cl : List Bool) (lk : List (String × Nat)) (st : List ProcessedEvent)
    (ef : List String) (t : Nat) :
    (Config.mk ev ph cl lk st ef).eventOf t = ev.getD t default := rfl

/-! ## Helper lemmas on list updates and the lock map -/

theorem getD_set_self {α : Type} (l : List α) (i : Nat) (v d : α)
    (h : i < l.length) : (l.set i v).getD i d = v := by
  simp [List.getD_eq_getElem?_getD, List.getElem?_set_self h]

theorem getD_set_ne {α : Type} (l : List α) {i j : Nat} (v d : α)
    (h : i ≠ j) : (l.set i v).getD j d = l.getD j d := by
  simp [List.getD_eq_getElem?_getD, List.getElem?_set_ne h]

theorem mem_mapSet {m : List (String × Nat)} {k : String} {v : Nat}
    {q : String × Nat} :
    q ∈ mapSet m k v ↔ q = (k, v) ∨ (q ∈ m ∧ q.1 ≠ k) := by
  simp [mapSet, List.mem_filter]

theorem mem_mapDelete {m : List (String × Nat)} {k : String}
    {q : String × Nat} :
    q ∈ mapDelete m k ↔ q ∈ m ∧ q.1 ≠ k := by
  simp [mapDelete, List.mem_filter]

theorem mapGet_eq_none {m : List (String × Nat)} {k : String} :
    mapGet m k = none ↔ ∀ q ∈ m, q.1 ≠ k := by
  simp [mapGet, List.find?_eq_none]

theorem getD_replicate {α : Type} (n i : Nat) (a d : α) :
    (List.replicate n a).getD i d = if i < n then a else d := by
  simp only [List.getD_eq_getElem?_getD, List.getElem?_replicate]
  split <;> simp

theorem inv_init (events : List QueueEventDto) : Inv (init events) := by
  refine ⟨by simp [init], by simp [init], ?_, ?_, ?_, by simp [init]⟩
  · intro q hq
    simp [init] at hq
  · intro t ht hcl
    simp only [init] at ht
    simp [init, Config.cleanedOf, List.getElem?_replicate, ht] at hcl
  · intro t hph
    simp [init, Config.phaseOf, getD_replicate] at hph

theorem cleanedOf_eq_false_of_not_done {c : Config} {t : Nat}
    (hc : Inv c) (hlt : t < c.events.length)
    (hnd : ∀ b, c.phaseOf t ≠ .done b) : c.cleanedOf t = false := by
  cases hcl : c.cleanedOf t with
  | false => rfl
  | true =>
    obtain ⟨b, hb⟩ := hc.cleanedDone t hlt hcl
    exact absurd hb (hnd b)

theorem inv_submit_aux {c : Config} {t : Nat} (hc : Inv c)
    (hlt : t < c.events.length) (heq : c.phaseOf t = .notSubmitted)
    {ph : Phase} (hph1 : ph ≠ .notSubmitted) :
    Inv { c with phase := c.phase.set t ph,
                 locks := mapSet c.locks (c.eventOf t).patientId t } := by
  have htl : t < c.phase.length := hc.phaseLen ▸ hlt
  refine ⟨by simp [hc.phaseLen], hc.cleanedLen, ?_, ?_, ?_, hc.storeNodup⟩
  · intro q hq
    rw [mem_mapSet] at hq
    rcases hq with rfl | ⟨hq, hne⟩
    · refine ⟨hlt, rfl, ?_, ?_⟩
      · simpa [Config.phaseOf, List.getElem?_set_self htl] using hph1
      · have hcf : c.cleanedOf t = false :=
          cleanedOf_eq_false_of_not_done hc hlt
            (fun b hb => by rw [heq] at hb; cases hb)
        simpa [Config.cleanedOf] using hcf
    · obtain ⟨h1, h2, h3, h4⟩ := hc.locksEntry q hq
      have hqt : q.2 ≠ t := by
        rintro rfl
        exact hne h2.symm
      refine ⟨h1, h2, ?_, h4⟩
      simpa [Config.phaseOf, List.getElem?_set_ne (Ne.symm hqt)] using h3
  · intro u hu hcl
    have hcl' : c.cleanedOf u = true := by simpa [Config.cleanedOf] using hcl
    obtain ⟨b, hb⟩ := hc.cleanedDone u hu hcl'
    have hut : u ≠ t := by
      rintro rfl
      rw [heq] at hb
      cases hb
    exact ⟨b, by
      simpa [Config.phaseOf, List.getElem?_set_ne (Ne.symm hut)] using hb⟩
  · intro u hph
    by_cases hut : u = t
    · exact hut ▸ hlt
    · apply hc.submittedLt
      simpa [Config.phaseOf, List.getElem?_set_ne (Ne.symm hut)] using hph

theorem inv_update_aux {c : Config} {t : Nat} (hc : Inv c)
    (hnotsub : c.phaseOf t ≠ .notSubmitted)
    (hnotdone : ∀ b, c.phaseOf t ≠ .done b)
    {ph : Phase} (hph1 : ph ≠ .notSubmitted) (eff : List String)
    {s : List ProcessedEvent}
    (hs : (s.map (fun r => r.eventId)).Nodup) :
    Inv { c with phase := c.phase.set t ph, store := s, effects := eff } := by
  have hlt : t < c.events.length := hc.submittedLt t hnotsub
  have htl : t < c.phase.length := hc.phaseLen ▸ hlt
  refine ⟨by simp [hc.phaseLen], hc.cleanedLen, ?_, ?_, ?_, hs⟩
  · intro q hq
    obtain ⟨h1, h2, h3, h4⟩ := hc.locksEntry q hq
    refine ⟨h1, h2, ?_, h4⟩
    by_cases hqt : q.2 = t
    · subst hqt
      simpa [Config.phaseOf, List.getElem?_set_self htl] using hph1
    · simpa [Config.phaseOf, List.getElem?_set_ne (Ne.symm hqt)] using h3
  · intro u hu hcl
    have hcl' : c.cleanedOf u = true := by simpa [Config.cleanedOf] using hcl
    obtain ⟨b, hb⟩ := hc.cleanedDone u hu hcl'
    have hut : u ≠ t := by
      rintro rfl
      exact hnotdone b hb
    exact ⟨b, by
      simpa [Config.phaseOf, List.getElem?_set_ne (Ne.symm hut)] using hb⟩
  · intro u hph
    by_cases hut : u = t
    · exact hut ▸ hlt
    · apply hc.submittedLt
      simpa [Config.phaseOf, List.getElem?_set_ne (Ne.symm hut)] using hph

theorem storeNodup_append {store : List ProcessedEvent} {r : ProcessedEvent}
    (hnd : (store.map (fun x => x.eventId)).Nodup)
    (hid : hasId store r.eventId = false) :
    ((store ++ [r]).map (fun x => x.eventId)).Nodup := by
  simp only [hasId, List.any_eq_false, decide_eq_true_eq] at hid
  simp only [List.map_append, List.map_cons, List.map_nil]
  rw [List.nodup_append]
  refine ⟨hnd, List.nodup_singleton _, ?_⟩
  intro x hx
  simp only [List.mem_map] at hx
  obtain ⟨y, hy, rfl⟩ := hx
  simp only [List.mem_singleton]
  exact fun hh => hid y hy hh

theorem inv_cleanup_aux {c : Config} {t : Nat} {b : Bool} (hc : Inv c)
    (heq : c.phaseOf t = .done b) (hcl : c.cleanedOf t = false) :
    Inv { c with cleaned := c.cleaned.set t true,
                 locks := mapDelete c.locks (c.eventOf t).patientId } := by
  have hlt : t < c.events.length :=
    hc.submittedLt t (by rw [heq]; intro hh; cases hh)
  refine ⟨hc.phaseLen, by simp [hc.cleanedLen], ?_, ?_, hc.submittedLt,
    hc.storeNodup⟩
  · intro q hq
    rw [mem_mapDelete] at hq
    obtain ⟨hq, hne⟩ := hq
    obtain ⟨h1, h2, h3, h4⟩ := hc.locksEntry q hq
    have hqt : q.2 ≠ t := by
      rintro rfl
      exact hne h2.symm
    refine ⟨h1, h2, h3, ?_⟩
    simpa [Config.cleanedOf, List.getElem?_set_ne (Ne.symm hqt)] using h4
  · intro u hu hclu
    by_cases hut : u = t
    · exact ⟨b, hut ▸ heq⟩
    · apply hc.cleanedDone u hu
      have := hclu
      simpa [Config.cleanedOf, List.getElem?_set_ne (Ne.symm hut)]
        using this

/-- Every action of the interleaving semantics preserves the invariant. -/

theorem inv_step {c c' : Config} {a : Action} (hc : Inv c)
    (h : step c a = some c') : Inv c' := by
  cases a with
  | submit t =>
    simp only [step] at h
    split at h
    · split at h
      · next x heq =>
          injection h with h
          subst h
          split
          · exact inv_submit_aux hc (by assumption) heq (by simp)
          · exact inv_submit_aux hc (by assumption) heq (by simp)
      · next x heq => cases h
    · cases h
  | proceed t =>
    simp only [step] at h
    split at h
    · next x p heq =>
        split at h
        · next y bb hp =>
            injection h with h
            subst h
            exact inv_update_aux hc (by simp [heq]) (by simp [heq])
              (by simp) c.effects hc.storeNodup
        · next y hp => cases h
    · next x heq => cases h
  | checkExists t fault =>
    simp only [step] at h
    split at h
    · next x heq =>
        split at h
        · injection h with h
          subst h
          exact inv_update_aux hc (by simp [heq]) (by simp [heq])
            (by simp) c.effects hc.storeNodup
        · split at h
          · injection h with h
            subst h
            exact inv_update_aux hc (by simp [heq]) (by simp [heq])
              (by simp) c.effects hc.storeNodup
          · injection h with h
            subst h
            exact inv_update_aux hc (by simp [heq]) (by simp [heq])
              (by simp) _ hc.storeNodup
    · next x heq => cases h
  | insertRecord t fault =>
    simp only [step] at h
    split at h
    · next x heq =>
        cases fault with
        | true =>
          simp only [mongoInsert, if_true] at h
          injection h with h
          subst h
          exact inv_update_aux hc (by simp [heq]) (by simp [heq])
            (by simp) c.effects hc.storeNodup
        | false =>
          by_cases hid : hasId c.store (mkRecord (c.eventOf t)).eventId
          · simp only [mongoInsert, Bool.false_eq_true, if_false, hid,
              if_true] at h
            injection h with h
            subst h
            exact inv_update_aux hc (by simp [heq]) (by simp [heq])
              (by simp) c.effects hc.storeNodup
          · simp only [mongoInsert, Bool.false_eq_true, if_false,
              hid, if_neg] at h
            injection h with h
            subst h
            exact inv_update_aux hc (by simp [heq]) (by simp [heq])
              (by simp) c.effects
              (storeNodup_append hc.storeNodup (by simpa using hid))
    · next x heq => cases h
  | cleanup t =>
    simp only [step] at h
    split at h
    · next x b heq =>
        split at h
        · cases h
        · next hcl =>
            injection h with h
            subst h
            exact inv_cleanup_aux hc heq (by simpa using hcl)
    · next x heq => cases h

theorem inv_run {c c' : Config} {tr : List Action} (hc : Inv c)
    (h : run c tr = some c') : Inv c' := by
  induction tr generalizing c with
  | nil =>
    simp only [run] at h
    injection h with h
    subst h
    exact hc
  | cons a rest ih =>
    simp only [run] at h
    split at h
    case h_1 c1 hstep => exact ih (inv_step hc hstep) h
    case h_2 => simp at h

theorem uuidSupply_injective : Function.Injective uuidSupply := by
  intro a b h
  have hlen := congrArg String.length h
  simpa [uuidSupply] using hlen

/-- C1: on the workload `[evA, evB, evB2]` (tasks 1 and 2 both carry
`eventId "B"`) the interleaving `traceC1` — reachable in the source
because `processEvent`'s `finally` deletes the `patientLocks` entry
unconditionally — executes the domain effect `simulateProcessing`
twice for `eventId "B"`, contradicting the at-most-once part of the
claim; the unique index still keeps the record count at one. -/

theorem C1_domain_effect_runs_twice :
    (run (init [evA, evB, evB2]) traceC1).map
      (fun c => (c.effects.count "B",
        (c.store.filter (fun r => r.eventId = "B")).length)) =
    some (2, 1) := by decide

/-- C2: on the workload `[evA, evB, evC]` (all for patient `"P"`,
submitted in that order in `traceC2`) the reachable configuration has
tasks 1 and 2 simultaneously in phase `running`: the processing
intervals of two successive events for one key overlap, refuting the
serialization claim.  The overlap follows from task 0's unconditional
cleanup erasing task 1's lock entry. -/

theorem C2_processing_intervals_overlap :
    (run (init [evA, evB, evC]) traceC2).map
      (fun c => (c.phaseOf 1, c.phaseOf 2)) =
    some (.running, .running) ∧ evB.patientId = evC.patientId := by decide

/-- C3: after `traceC3` the current `patientLocks` entry for `"P"` is the
one installed by the later submission (task 1), yet completed task 0's
cleanup action (`finally \x7b patientLocks.delete \x7d`) removes it: the
cleanup deletes an entry that a later submission installed as the
current tail, refuting the only-if-current claim. -/

theorem C3_cleanup_deletes_newer_entry :
    (run (init [evA, evB, evB2]) traceC3).map (fun c => mapGet c.locks "P") =
      some (some 1) ∧
    ((run (init [evA, evB, evB2]) traceC3).bind
        (fun c => step c (.cleanup 0))).map (fun c => mapGet c.locks "P") =
      some none := by decide

/-! ## Claim theorems on the worker model -/

/-- C4: with the task in step 3 (`running`, about to `create`): if the
collection already holds a row with the task's `eventId`, the insert is
rejected by the unique index with error code 11000, which
`processEventInternal` catches and swallows — the task's promise
resolves (`done true`), the store and the effect log are unchanged, and
the task neither re-attempts the insert nor re-runs the effect (both
actions are disabled afterwards).  Any other insert failure
(`storeUnavailable`, modelled by `fault = true`) is rethrown and the
task terminates rejected (`done false`). -/

theorem C4_duplicate_key_swallowed_store_failure_propagated
    (c : Config) (t : Nat) (hrun : c.phaseOf t = .running)
    (htl : t < c.phase.length) :
    (hasId c.store (c.eventOf t).eventId = true →
      ∃ c', step c (.insertRecord t false) = some c' ∧
        c'.phaseOf t = .done true ∧ c'.store = c.store ∧
        c'.effects = c.effects ∧
        step c' (.insertRecord t false) = none ∧
        step c' (.checkExists t false) = none) ∧
    (∃ c2, step c (.insertRecord t true) = some c2 ∧
      c2.phaseOf t = .done false ∧ c2.store = c.store) := by
  constructor
  · intro hid
    refine ⟨{ c with phase := c.phase.set t (.done true) }, ?_, ?_, rfl,
      rfl, ?_, ?_⟩
    · simp [step, hrun, mongoInsert, mkRecord, hid]
    · simp [Config.phaseOf, List.getElem?_set_self htl]
    · have hph : ({ c with phase := c.phase.set t (.done true) } :
          Config).phaseOf t = .done true := by
        simp [Config.phaseOf, List.getElem?_set_self htl]
      simp [step, hph]
    · have hph : ({ c with phase := c.phase.set t (.done true) } :
          Config).phaseOf t = .done true := by
        simp [Config.phaseOf, List.getElem?_set_self htl]
      simp [step, hph]
  · refine ⟨{ c with phase := c.phase.set t (.done false) }, ?_, ?_, rfl⟩
    · simp [step, hrun, mongoInsert]
    · simp [Config.phaseOf, List.getElem?_set_self htl]

/-- C5: with the task in step 1 (`ready`, the `findOne` duplicate check
pending) and the collection already holding a row with the task's
`eventId`: the check resolves the task immediately (`done true`),
`simulateProcessing` never runs (the effect log is unchanged), nothing
is inserted (the store is unchanged), and afterwards both the insert
and the check are disabled — the call was a pure no-op on the store. -/

theorem C5_existing_record_skips_without_effect_or_insert
    (c : Config) (t : Nat) (hready : c.phaseOf t = .ready)
    (htl : t < c.phase.length)
    (hid : hasId c.store (c.eventOf t).eventId = true) :
    ∃ c', step c (.checkExists t false) = some c' ∧
      c'.phaseOf t = .done true ∧ c'.store = c.store ∧
      c'.effects = c.effects ∧
      step c' (.insertRecord t false) = none ∧
      step c' (.checkExists t false) = none := by
  refine ⟨{ c with phase := c.phase.set t (.done true) }, ?_, ?_, rfl,
    rfl, ?_, ?_⟩
  · simp [step, hready, hid]
  · simp [Config.phaseOf, List.getElem?_set_self htl]
  · have hph : ({ c with phase := c.phase.set t (.done true) } :
        Config).phaseOf t = .done true := by
      simp [Config.phaseOf, List.getElem?_set_self htl]
    simp [step, hph]
  · have hph : ({ c with phase := c.phase.set t (.done true) } :
        Config).phaseOf t = .done true := by
      simp [Config.phaseOf, List.getElem?_set_self htl]
    simp [step, hph]

/-- C6: a task `t` queued behind a failed predecessor `p` (whose promise
rejected, `done false`) is not blocked: the
`await existingPromise.catch(() => \x7b\x7d)` swallows the predecessor's
error — reported only to the predecessor's own caller — so `proceed t`
is enabled, and a schedule exists (the fault-free one) under which `t`
runs `processEventInternal` to completion and resolves successfully. -/

theorem C6_predecessor_failure_does_not_block_successor
    (c : Config) (t p : Nat) (hw : c.phaseOf t = .waitingOn p)
    (hp : c.phaseOf p = .done false) (htl : t < c.phase.length) :
    ∃ tr c', run c (.proceed t :: tr) = some c' ∧
      c'.phaseOf t = .done true := by
  have h1 : step c (.proceed t) =
      some { c with phase := c.phase.set t .ready } := by
    simp [step, hw, hp]
  by_cases hid : hasId c.store (c.eventOf t).eventId
  · -- the eventId is already recorded: the duplicate check skips,
    -- resolving the task.
    have hid2 : hasId c.store ((c.events[t]?).getD default).eventId =
        true := by
      simpa [Config.eventOf] using hid
    have h2 : step { c with phase := c.phase.set t .ready }
        (.checkExists t false) =
        some { c with phase := c.phase.set t (.done true) } := by
      simp [step, List.getElem?_set_self htl, hid2]
    refine ⟨[.checkExists t false],
      { c with phase := c.phase.set t (.done true) }, ?_, ?_⟩
    · simp [run, h1, h2]
    · simp [List.getElem?_set_self htl]
  · -- fresh eventId: the effect runs, then the insert succeeds.
    have hid2 : hasId c.store ((c.events[t]?).getD default).eventId =
        false := by
      simpa [Config.eventOf] using hid
    have h2 : step { c with phase := c.phase.set t .ready }
        (.checkExists t false) =
        some { c with
                phase := c.phase.set t .running,
                effects := c.effects ++ [(c.eventOf t).eventId] } := by
      simp [step, Config.eventOf, List.getElem?_set_self htl, hid2]
    have h3 : step { c with
        phase := c.phase.set t .running,
        effects := c.effects ++ [(c.eventOf t).eventId] }
        (.insertRecord t false) =
        some { c with
                phase := c.phase.set t (.done true),
                store := c.store ++ [mkRecord (c.eventOf t)],
                effects := c.effects ++ [(c.eventOf t).eventId] } := by
      simp [step, Config.eventOf, List.getElem?_set_self htl, mongoInsert,
        mkRecord, hid2]
    refine ⟨[.checkExists t false, .insertRecord t false],
      { c with
        phase := c.phase.set t (.done true),
        store := c.store ++ [mkRecord (c.eventOf t)],
        effects := c.effects ++ [(c.eventOf t).eventId] }, ?_, ?_⟩
    · simp [run, h1, h2, h3]
    · simp [List.getElem?_set_self htl]

/-- C7: the unique index on `eventId` enforces uniqueness atomically at
the storage layer, independently of the `findOne` pre-check: (a) once an
insert for a record has been applied, a second insert of a record with
the same `eventId` is answered `duplicateKey` and leaves the collection
unchanged — so of two racing attempts, whichever insert is serialized
second is rejected rather than creating a second row; (b) consequently,
in every reachable configuration of the interleaving semantics (any
workload, any schedule, including ones where two tasks with the same
`eventId` both pass the exists check) the rows of `processed_events`
carry pairwise-distinct `eventId`s. -/

theorem C7_unique_index_is_atomic_backstop :
    (∀ (s : List ProcessedEvent) (r r2 : ProcessedEvent),
      r2.eventId = r.eventId →
      (mongoInsert false (mongoInsert false s r).2 r2).1 = .duplicateKey ∧
      (mongoInsert false (mongoInsert false s r).2 r2).2 =
        (mongoInsert false s r).2) ∧
    ∀ (events : List QueueEventDto) (tr : List Action) (c : Config),
      run (init events) tr = some c →
      (c.store.map (fun r => r.eventId)).Nodup := by
  constructor
  · intro s r r2 hrr
    by_cases hid : hasId s r.eventId
    · simp [mongoInsert, hid, hrr]
    · have hid2 : hasId (s ++ [r]) r.eventId = true := by
        simp [hasId]
      simp [mongoInsert, hid, hid2, hrr]
  · intro events tr c h
    exact (inv_run (inv_init events) h).storeNodup

/-- C8: in any reachable configuration in which, for a key `k`, every
submitted task for `k` has had its `finally` block run (which happens
after each task finishes, successfully or not), the `patientLocks` map
holds no entry for `k`: per-key bookkeeping does not outlive the work
for that key.  (The unconditional delete in the source makes the entry
disappear at the latest when the last task's `finally` runs.) -/

theorem C8_registry_entry_removed_when_key_idle
    (events : List QueueEventDto) (tr : List Action) (c : Config)
    (k : String) (h : run (init events) tr = some c)
    (hall : ∀ t, t < c.events.length → (c.eventOf t).patientId = k →
      c.phaseOf t ≠ .notSubmitted → c.cleanedOf t = true) :
    mapGet c.locks k = none := by
  have hInv := inv_run (inv_init events) h
  rw [mapGet_eq_none]
  intro q hq hk
  obtain ⟨h1, h2, h3, h4⟩ := hInv.locksEntry q hq
  have hcl := hall q.2 h1 (h2.trans hk) h3
  rw [h4] at hcl
  cases hcl

/-- C9: a structurally valid body is always answered `accepted` (202),
whatever the collection holds (in particular for business duplicates,
whose `eventId` is already in the store) and whatever the eventual
processing outcome; `badRequest` occurs exactly for bodies failing the
DTO validation; and the reply is independent of store contents and
outcome altogether. -/

theorem C9_valid_input_always_accepted (iso : String → Bool)
    (r : RawQueueEvent) (store : List ProcessedEvent)
    (processingFails : Bool) :
    (queueEventDtoValid iso r = true →
      receiveEvent iso r store processingFails = .accepted) ∧
    (receiveEvent iso r store processingFails = .badRequest ↔
      queueEventDtoValid iso r = false) ∧
    (∀ (store2 : List ProcessedEvent) (b2 : Bool),
      receiveEvent iso r store processingFails =
        receiveEvent iso r store2 b2) := by
  by_cases hv : queueEventDtoValid iso r
  · refine ⟨fun _ => by simp [receiveEvent, hv], ?_, ?_⟩
    · simp [receiveEvent, hv]
    · intro store2 b2
      simp [receiveEvent, hv]
  · refine ⟨fun hcontra => absurd hcontra hv, ?_, ?_⟩
    · simp [receiveEvent, hv]
    · intro store2 b2
      simp [receiveEvent, hv]

/-- C10: `publish` stamps call `n` with `uuid n` as the `eventId`,
independently of the caller's body (which cannot carry an identifier —
`IngestEventDto` has no such field), copies the four DTO fields
unchanged, and — under collision-freedom of `randomUUID` — two distinct
publish calls, in particular two identical POSTs, always send distinct
`eventId`s downstream.  Idempotent absorption of retries therefore
starts at the processor boundary, never at the ingest API. -/

theorem C10_publish_generates_fresh_eventId (uuid : Nat → String)
    (huuid : Function.Injective uuid) (n m : Nat)
    (e e2 : IngestEventDto) :
    (publish uuid n e).eventId = uuid n ∧
    (publish uuid n e).eventId = (publish uuid n e2).eventId ∧
    (publish uuid n e).patientId = e.patientId ∧
    (publish uuid n e).kind = e.kind ∧
    (publish uuid n e).data = e.data ∧
    (publish uuid n e).ts = e.ts ∧
    (n ≠ m → (publish uuid n e).eventId ≠ (publish uuid m e2).eventId) :=
  ⟨rfl, rfl, rfl, rfl, rfl, rfl, fun hnm hcontra => hnm (huuid hcontra)⟩

theorem C4_duplicate_key_swallowed_witness :
    cw4.phaseOf 0 = .running ∧ 0 < cw4.phase.length ∧
    hasId cw4.store (cw4.eventOf 0).eventId = true ∧
    (∃ c', step cw4 (.insertRecord 0 false) = some c' ∧
      c'.phaseOf 0 = .done true ∧ c'.store = cw4.store ∧
      c'.effects = cw4.effects ∧
      step c' (.insertRecord 0 false) = none ∧
      step c' (.checkExists 0 false) = none) ∧
    (∃ c2, step cw4 (.insertRecord 0 true) = some c2 ∧
      c2.phaseOf 0 = .done false ∧ c2.store = cw4.store) :=
  ⟨by decide, by decide, by decide,
    (C4_duplicate_key_swallowed_store_failure_propagated cw4 0 (by decide)
      (by decide)).1 (by decide),
    (C4_duplicate_key_swallowed_store_failure_propagated cw4 0 (by decide)
      (by decide)).2⟩

theorem C5_existing_record_skips_witness :
    cw5.phaseOf 0 = .ready ∧ 0 < cw5.phase.length ∧
    hasId cw5.store (cw5.eventOf 0).eventId = true ∧
    (∃ c', step cw5 (.checkExists 0 false) = some c' ∧
      c'.phaseOf 0 = .done true ∧ c'.store = cw5.store ∧
      c'.effects = cw5.effects ∧
      step c' (.insertRecord 0 false) = none ∧
      step c' (.checkExists 0 false) = none) :=
  ⟨by decide, by decide, by decide,
    C5_existing_record_skips_without_effect_or_insert cw5 0 (by decide)
      (by decide) (by decide)⟩

theorem C6_predecessor_failure_witness :
    cw6.phaseOf 1 = .waitingOn 0 ∧ cw6.phaseOf 0 = .done false ∧
    1 < cw6.phase.length ∧
    (∃ tr c', run cw6 (.proceed 1 :: tr) = some c' ∧
      c'.phaseOf 1 = .done true) :=
  ⟨by decide, by decide, by decide,
    C6_predecessor_failure_does_not_block_successor cw6 1 0 (by decide)
      (by decide) (by decide)⟩

theorem C7_unique_index_witness :
    ((mkRecord evA).eventId = (mkRecord evA).eventId ∧
      (mongoInsert false (mongoInsert false [] (mkRecord evA)).2
        (mkRecord evA)).1 = .duplicateKey) ∧
    (run (init [evA]) trW7 = some cw7 ∧
      (cw7.store.map (fun r => r.eventId)).Nodup) :=
  ⟨⟨rfl, (C7_unique_index_is_atomic_backstop.1 [] (mkRecord evA)
      (mkRecord evA) rfl).1⟩,
    ⟨by decide, C7_unique_index_is_atomic_backstop.2 [evA] trW7 cw7
      (by decide)⟩⟩

theorem C8_registry_cleanup_witness :
    run (init [evA]) trW8 = some cw8 ∧
    (∀ t, t < cw8.events.length → (cw8.eventOf t).patientId = "P" →
      cw8.phaseOf t ≠ .notSubmitted → cw8.cleanedOf t = true) ∧
    mapGet cw8.locks "P" = none :=
  ⟨by decide, by decide,
    C8_registry_entry_removed_when_key_idle [evA] trW8 cw8 "P" (by decide)
      (by decide)⟩

theorem C9_valid_input_accepted_witness :
    queueEventDtoValid isoAny rawOk = true ∧
    receiveEvent isoAny rawOk [mkRecord evA] true = .accepted :=
  ⟨by decide,
    (C9_valid_input_always_accepted isoAny rawOk [mkRecord evA] true).1
      (by decide)⟩

theorem C10_publish_fresh_witness :
    (0 : Nat) ≠ 1 ∧
    (publish uuidSupply 0 ingestBody).eventId = uuidSupply 0 ∧
    (publish uuidSupply 0 ingestBody).eventId ≠
      (publish uuidSupply 1 ingestBody).eventId :=
  ⟨by decide,
    (C10_publish_generates_fresh_eventId uuidSupply uuidSupply_injective
      0 1 ingestBody ingestBody).1,
    (C10_publish_generates_fresh_eventId uuidSupply uuidSupply_injective
      0 1 ingestBody ingestBody).2.2.2.2.2.2 (by decide)⟩

end MedInt
